import Mathlib

/-!
# Attolytics — verification of the schema-driven type conversion and ingestion engine

Shallow embedding of the attolytics server (`src/main.rs`, `src/types.rs`).
The crate also declares `mod schema` and `mod db`, whose files are not part of the
provided sources; the definitions that stand in for them are explicitly marked
`Modelled from the spec:` and follow the specification's words.

Conventions of the embedding:
* JSON values (`serde_json::Value`) are the inductive `Json`; JSON numbers are
  modelled exactly as rationals, tagged by whether serde stored them as an
  integer (`i64`/`u64`) or as a float (`f64`).  The rounding a decimal literal
  suffers when parsed into an `f64` is not modelled: numbers appearing in the
  claims (`5000000000`, `1700000000.5`, `-1.5`) are exactly representable.
* `Box<dyn ToSql>` values are the inductive `SqlValue`: one constructor per
  physical column type, each carrying an `Option` whose `none` is the typed
  SQL null bound by the driver's `ToSql` impl for `Option<T>`.
* chrono's `DateTime<FixedOffset>` is a `(secs, nanos, offset)` triple;
  `NaiveDateTime::from_timestamp_opt` is modelled by its documented domain
  (calendar years -262144..=262143, nanoseconds below two billion).
* chrono's RFC 3339 parser is an external library function; it is threaded
  through as an explicit parameter `rfc : String → Except String DateTime`,
  and the theorems about the string branch hold for every parser.
-/

/-- The parsed form of a JSON number as stored by `serde_json`:
`int` for numbers stored as `i64`/`u64`, `dec` for numbers stored as `f64`
(modelled exactly as a rational). -/
inductive JNumber where
  | int (v : Int)
  | dec (v : Rat)
deriving DecidableEq, Repr

/-- Abbreviation for `String` usable inside `Ty.*` declarations, where the bare
name would resolve to the constructor `Ty.String`. -/
abbrev Str := String

/-- Likewise for `Bool` inside `Ty.*` declarations. -/
abbrev Bl := Bool

/-- `serde_json::Value`. -/
inductive Json where
  | null
  | bool (b : Bool)
  | num (n : JNumber)
  | str (s : String)
  | arr (elems : List Json)
  | obj (fields : List (String × Json))

/-- First-match association lookup (serde_json object keys are unique; Rust
`HashMap::get` / header lookup are modelled the same way). -/
def alookup {β : Type} : List (String × β) → String → Option β
  | [], _ => none
  | (k, v) :: rest, key => if k = key then some v else alookup rest key

/-- `serde_json::Number::as_f64().unwrap()` on a number: total, exact rational. -/
def JNumber.as_f64_exact : JNumber → Rat
  | .int v => (v : Rat)
  | .dec q => q

/-- `Value::as_bool`. -/
def Json.as_bool : Json → Option Bool
  | .bool b => some b
  | _ => none

/-- `Value::as_i64`: `some` exactly when the number was stored integrally and
fits in the signed 64-bit range. -/
def Json.as_i64 : Json → Option Int
  | .num (.int v) => if -(2 ^ 63) ≤ v ∧ v < 2 ^ 63 then some v else none
  | _ => none

/-- `Value::as_f64` (numeric value, exact). -/
def Json.as_f64 : Json → Option Rat
  | .num n => some n.as_f64_exact
  | _ => none

/-- `Value::as_str`. -/
def Json.as_str : Json → Option String
  | .str s => some s
  | _ => none

/-- `Value::is_number`. -/
def Json.is_number : Json → Bool
  | .num _ => true
  | _ => false

/-- `Value::is_string`. -/
def Json.is_string : Json → Bool
  | .str _ => true
  | _ => false

/-- `value[key]` (`Index<&str>` on `serde_json::Value`): field of an object,
`Null` for a missing key or a non-object. -/
def Json.index (j : Json) (key : String) : Json :=
  match j with
  | .obj fields => (alookup fields key).getD .null
  | _ => .null

/-- `i32::try_from(i).ok()`: the integer itself when it fits in 32 bits. -/
def i32_try_from (i : Int) : Option Int :=
  if -(2 ^ 31) ≤ i ∧ i < 2 ^ 31 then some i else none

/-- Rust `f64` `as i64` cast: truncation with saturation (the input is already
integral here, so only the saturation matters). -/
def i64_sat (i : Int) : Int :=
  max (-(2 ^ 63)) (min i (2 ^ 63 - 1))

/-- Rust `f64::trunc` on an exact rational: rounding toward zero. -/
def rat_trunc (q : Rat) : Int :=
  if 0 ≤ q then Rat.floor q else -Rat.floor (-q)

/-- Rust `f64::fract`: `self - self.trunc()` (sign-preserving). -/
def fract_rust (q : Rat) : Rat :=
  q - (rat_trunc q : Rat)

/-- Rust `f64` `as u32` cast: truncation toward zero, saturating at the
bounds (negative inputs become `0`). -/
def u32_trunc_sat (q : Rat) : Nat :=
  if q < 0 then 0 else min (Rat.floor q).toNat (2 ^ 32 - 1)

/-- `enum Type` of `types.rs` (`Type` is a Lean keyword, hence `Ty`). -/
inductive Ty where
  | Bool
  | I32
  | I64
  | F32
  | F64
  | String
  | Timestamp
deriving DecidableEq, Repr

/-- `impl Default for Type { fn default() -> Type { Type::String } }`. -/
def Ty.default : Ty := Ty.String

/-- `enum ConversionError` of `types.rs` (chrono's `ParseError` payload is
carried as a string). -/
inductive ConversionError where
  | MissingValue (key : String)
  | TimestampFormat (err : String)
  | TimestampTooLarge
deriving DecidableEq, Repr

/-- The physical PostgreSQL column types used by `Type::postgres_type`. -/
inductive PgType where
  | BOOL
  | INT4
  | INT8
  | FLOAT4
  | FLOAT8
  | VARCHAR
  | TIMESTAMPTZ
deriving DecidableEq, Repr

/-- `postgres::types::Type::name` restricted to the types in use. -/
def PgType.name : PgType → String
  | .BOOL => "bool"
  | .INT4 => "int4"
  | .INT8 => "int8"
  | .FLOAT4 => "float4"
  | .FLOAT8 => "float8"
  | .VARCHAR => "varchar"
  | .TIMESTAMPTZ => "timestamptz"

/-- `Type::postgres_type` of `types.rs`. -/
def Ty.postgres_type : Ty → PgType
  | .Bool => .BOOL
  | .I32 => .INT4
  | .I64 => .INT8
  | .F32 => .FLOAT4
  | .F64 => .FLOAT8
  | .String => .VARCHAR
  | .Timestamp => .TIMESTAMPTZ

/-- `Type::postgres_type_name` of `types.rs`. -/
def Ty.postgres_type_name (t : Ty) : Str :=
  t.postgres_type.name

/-- chrono `DateTime<FixedOffset>`: an instant (seconds and nanoseconds since
the Unix epoch) together with the fixed offset in seconds. -/
structure DateTime where
  secs : Int
  nanos : Nat
  offset : Int
deriving DecidableEq, Repr

/-- chrono `NaiveDateTime` (instant without offset). -/
structure NaiveDateTime where
  secs : Int
  nanos : Nat
deriving DecidableEq, Repr

/-- Smallest epoch-seconds value representable by chrono's `NaiveDateTime`
(midnight of -262144-01-01). -/
def minTimestampSecs : Int := -8334632937600

/-- Largest epoch-seconds value representable by chrono's `NaiveDateTime`
(last second of 262143-12-31). -/
def maxTimestampSecs : Int := 8210298412799

/-- chrono `NaiveDateTime::from_timestamp_opt`: `none` exactly when the
seconds fall outside the representable calendar range or the nanoseconds
reach two billion. -/
def NaiveDateTime.from_timestamp_opt (secs : Int) (nsecs : Nat) : Option NaiveDateTime :=
  if minTimestampSecs ≤ secs ∧ secs ≤ maxTimestampSecs ∧ nsecs < 2000000000 then
    some ⟨secs, nsecs⟩
  else
    none

/-- `TimeZone::from_utc_datetime(&FixedOffset::west_opt(0).unwrap(), naive)`:
the same instant, carried in the zero offset. -/
def NaiveDateTime.from_utc_zero (nd : NaiveDateTime) : DateTime :=
  ⟨nd.secs, nd.nanos, 0⟩

/-- The external RFC 3339 parser `DateTime::parse_from_rfc3339` of chrono,
abstracted as a parameter (errors carried as strings). -/
abbrev Rfc3339Parser := String → Except String DateTime

/-- `json_to_date_time` of `types.rs`.  Numbers are read as epoch seconds:
`timestamp.floor() as i64` for the seconds and `(1e9 * timestamp.fract()) as
u32` for the nanoseconds, then `NaiveDateTime::from_timestamp_opt`; its
`none` becomes `TimestampTooLarge`, otherwise the naive instant is placed in
the zero fixed offset.  Strings go to the RFC 3339 parser, whose error
becomes `TimestampFormat`.  Every other JSON shape yields `Ok(None)`. -/
def json_to_date_time (rfc : Rfc3339Parser) (json : Json) : Except ConversionError (Option DateTime) :=
  match json with
  | .num n =>
    match NaiveDateTime.from_timestamp_opt (i64_sat (Rat.floor n.as_f64_exact))
        (u32_trunc_sat (1000000000 * fract_rust n.as_f64_exact)) with
    | none => .error .TimestampTooLarge
    | some naive => .ok (some naive.from_utc_zero)
  | .str s =>
    match rfc s with
    | .ok d => .ok (some d)
    | .error err => .error (.TimestampFormat err)
  | _ => .ok none

/-- A boxed `dyn ToSql` value: one constructor per physical column type, the
inner `none` being the typed SQL null that `ToSql for Option<T>` binds.
(The extra `Option` layers Rust sometimes boxes, e.g. `Box<Option<Option<i32>>>`,
are invisible to the driver, which flattens nested options when binding;
constructors record the flattened binding.) -/
inductive SqlValue where
  | b (v : Option Bool)
  | i32 (v : Option Int)
  | i64 (v : Option Int)
  | f32 (v : Option Rat)
  | f64 (v : Option Rat)
  | str (v : Option String)
  | ts (v : Option DateTime)
deriving DecidableEq, Repr

/-- `f as f32` narrowing.  The precision loss of the 32-bit float is not
modelled (floating point); no claim depends on `F32` values. -/
def f32_narrow (q : Rat) : Rat := q

/-- `unwrap_if_required` of `types.rs`.  `emb` is the `ToSql` boxing of a
present value of the Rust type parameter `T`, and `embNull` is the typed
null that `Box::new(None::<T>)` binds; both are fixed at each call site by
the `ToSql` instance Rust selects there.  When `required`, a missing option
is `MissingValue(key)`; otherwise the option itself is boxed, binding the
typed null when absent. -/
def unwrap_if_required {T : Type} (key : String) (option : Option T) (required : Bool)
    (emb : T → SqlValue) (embNull : SqlValue) : Except ConversionError SqlValue :=
  if required then
    match option with
    | some v => .ok (emb v)
    | none => .error (.MissingValue key)
  else
    .ok (option.elim embNull emb)

/-- `Type::json_to_sql` of `types.rs`.  Note the `I32` arm: the source maps
`i32::try_from(i).ok()` over `json.as_i64()`, so the Rust option handed to
`unwrap_if_required` has type `Option<Option<i32>>` — an out-of-range
integer is `Some(None)`, a *present* value whose binding is the null `i32`. -/
def Ty.json_to_sql (t : Ty) (rfc : Rfc3339Parser) (key : Str) (json : Json) (required : Bl) :
    Except ConversionError SqlValue :=
  match t with
  | .Bool =>
    unwrap_if_required key json.as_bool required (fun b => .b (some b)) (.b none)
  | .I32 =>
    unwrap_if_required key (json.as_i64.map i32_try_from) required
      (fun o => .i32 o) (.i32 none)
  | .I64 =>
    unwrap_if_required key json.as_i64 required (fun i => .i64 (some i)) (.i64 none)
  | .F32 =>
    unwrap_if_required key (json.as_f64.map f32_narrow) required
      (fun q => .f32 (some q)) (.f32 none)
  | .F64 =>
    unwrap_if_required key json.as_f64 required (fun q => .f64 (some q)) (.f64 none)
  | .String =>
    unwrap_if_required key json.as_str required (fun s => .str (some s)) (.str none)
  | .Timestamp =>
    match json_to_date_time rfc json with
    | .error e => .error e
    | .ok opt => unwrap_if_required key opt required (fun d => .ts (some d)) (.ts none)

/-- `header_to_sql` of `types.rs`: the raw header string (if any) boxed as a
varchar, regardless of the column's declared type. -/
def header_to_sql (key : String) (value : Option String) (required : Bool) :
    Except ConversionError SqlValue :=
  unwrap_if_required key value required (fun s => .str (some s)) (.str none)

/-- Modelled from the spec: the `Column` of `schema.rs` (not under `src/`):
"sourced from either an event body field or a request header" — the
two-variant `ValueSource` tag of §9. -/
inductive ValueSource where
  | eventField
  | headerField (headerName : String)
deriving DecidableEq, Repr

/-- Modelled from the spec: the `Column` of `schema.rs` (not under `src/`):
`{name, type, required, source}`. -/
structure Column where
  name : String
  ty : Ty
  required : Bool
  source : ValueSource
deriving DecidableEq, Repr

/-- Modelled from the spec: the `Table` of `schema.rs` (not under `src/`):
a name and an ordered sequence of columns. -/
structure Table where
  name : String
  columns : List Column
deriving DecidableEq, Repr

/-- Modelled from the spec: the `App` of `schema.rs` (not under `src/`):
`{id, secret_key, allowed_origin, tables}` (the id is the key it is stored
under; `access_control_allow_origin` is the field name `main.rs` uses). -/
structure App where
  secret_key : String
  access_control_allow_origin : String
  tables : List String
deriving DecidableEq, Repr

/-- Modelled from the spec: the `Schema` of `schema.rs` (not under `src/`):
the aggregate of apps by id and tables by name. -/
structure Schema where
  apps : List (String × App)
  tables : List (String × Table)
deriving DecidableEq, Repr

/-- The request header map, looked up by header name. -/
abbrev HeaderMap := List (String × String)

/-- `struct EventPostData` of `main.rs`. -/
structure EventPostData where
  secret_key : String
  events : List Json

/-- Modelled from the spec: the `DbError` of `db.rs` (not under `src/`).
`main.rs` matches on `DbError::ConversionError(_, _)`, a conversion failure
carrying the offending table context; every other database failure is
collapsed into `Db`. -/
inductive DbError where
  | ConversionError (table : String) (err : ConversionError)
  | Db (msg : String)
deriving DecidableEq, Repr

/-- `Except.isOk` as a plain boolean, to state "this coercion fails/succeeds"
decidably. -/
def exceptIsOk {ε α : Type} : Except ε α → Bool
  | .ok _ => true
  | .error _ => false

/-- Modelled from the spec: one column of `db::insert_event` (not under
`src/`): "obtain the raw source value (event field by name, or header by
name) and coerce it via the Type System", reporting any `ConversionError`
with the table context. -/
def coerce_column (rfc : Rfc3339Parser) (tname : String) (event : Json) (headers : HeaderMap)
    (col : Column) : Except DbError SqlValue :=
  match col.source with
  | .eventField =>
    match col.ty.json_to_sql rfc col.name (event.index col.name) col.required with
    | .ok v => .ok v
    | .error e => .error (.ConversionError tname e)
  | .headerField h =>
    match header_to_sql col.name (alookup headers h) col.required with
    | .ok v => .ok v
    | .error e => .error (.ConversionError tname e)

/-- Modelled from the spec: the column loop of `db::insert_event` (not under
`src/`): coerce the table's columns in order, stopping at the first failure. -/
def coerce_columns (rfc : Rfc3339Parser) (tname : String) (event : Json) (headers : HeaderMap) :
    List Column → Except DbError (List SqlValue)
  | [] => .ok []
  | c :: rest =>
    match coerce_column rfc tname event headers c with
    | .error d => .error d
    | .ok v =>
      match coerce_columns rfc tname event headers rest with
      | .error d => .error d
      | .ok vs => .ok (v :: vs)

/-- One row accumulated for insertion: the coerced values in column order. -/
structure Row where
  values : List SqlValue
deriving DecidableEq, Repr

/-- Modelled from the spec: `db::insert_event` (not under `src/`): coerce
every column of the table from the event and the headers, yielding the row
to insert. -/
def insert_event (rfc : Rfc3339Parser) (table : Table) (event : Json) (headers : HeaderMap) :
    Except DbError Row :=
  match coerce_columns rfc table.name event headers table.columns with
  | .error d => .error d
  | .ok vs => .ok ⟨vs⟩

/-- The HTTP statuses `events_post` of `main.rs` produces on its failure
paths. -/
inductive Status where
  | Forbidden
  | NotFound
  | BadRequest
  | InternalServerError
deriving DecidableEq, Repr

/-- The pre-validation loop of `events_post` (`main.rs`): for each event in
order, `event["_t"].as_str().ok_or(Status::BadRequest)?`, then
`Status::NotFound` unless the app's table set contains the name. -/
def prevalidate (app : App) : List Json → Except Status Unit
  | [] => .ok ()
  | e :: rest =>
    match (e.index "_t").as_str with
    | none => .error .BadRequest
    | some tname =>
      if tname ∈ app.tables then prevalidate app rest
      else .error .NotFound

/-- Result of the transactional insertion loop of `events_post`:
`panicked` models the `unwrap()` of `event["_t"].as_str()` firing on `None`. -/
inductive LoopResult where
  | panicked
  | errored (s : Status)
  | inserted (rows : List (String × Row))
deriving DecidableEq, Repr

/-- The transactional insertion loop of `events_post` (`main.rs`): for each
event in batch order, `event["_t"].as_str().unwrap()` (panic on `None`),
resolve the table from the global catalog (`InternalServerError` when
absent), and `db::insert_event`; a `DbError::ConversionError` maps to
`BadRequest`, any other `DbError` to `InternalServerError`. -/
def insert_loop (rfc : Rfc3339Parser) (schema : Schema) (headers : HeaderMap) :
    List Json → LoopResult
  | [] => .inserted []
  | e :: rest =>
    match (e.index "_t").as_str with
    | none => .panicked
    | some tname =>
      match alookup schema.tables tname with
      | none => .errored .InternalServerError
      | some table =>
        match insert_event rfc table e headers with
        | .error (.ConversionError _ _) => .errored .BadRequest
        | .error (.Db _) => .errored .InternalServerError
        | .ok row =>
          match insert_loop rfc schema headers rest with
          | .inserted rows => .inserted ((tname, row) :: rows)
          | other => other

/-- The database-side steps a request performs, in order. -/
inductive DbAction where
  | getConn
  | beginTrans
  | commitTrans
  | rollbackTrans
deriving DecidableEq, Repr

/-- Persistent database content: rows by table name, in insertion order. -/
structure Db where
  rows : List (String × Row)
deriving DecidableEq, Repr

/-- Overall outcome of one `events_post` call. -/
inductive Outcome where
  | success
  | failure (s : Status)
  | panicked
deriving DecidableEq, Repr

/-- Outcome, resulting database state, and the database actions performed. -/
structure IngestResult where
  outcome : Outcome
  db : Db
  trace : List DbAction
deriving DecidableEq, Repr

/-- `events_post` of `main.rs`.  `none` is the route-level 404 of
`schema.apps.get(&app_id)?` (app not found).  Then, in source order: the
secret-key check (`Forbidden`), the pre-validation loop over `_t`
(`BadRequest`/`NotFound`, before any database work), connection acquisition
and transaction begin, the insertion loop, and commit.  The connection pool
and the transaction machinery are modelled as infallible: an uncommitted
transaction rolls back, leaving the database unchanged. -/
def events_post (rfc : Rfc3339Parser) (schema : Schema) (app_id : String) (headers : HeaderMap)
    (data : EventPostData) (db : Db) : Option IngestResult :=
  match alookup schema.apps app_id with
  | none => none
  | some app => some <|
    if data.secret_key ≠ app.secret_key then
      ⟨.failure .Forbidden, db, []⟩
    else
      match prevalidate app data.events with
      | .error s => ⟨.failure s, db, []⟩
      | .ok _ =>
        match insert_loop rfc schema headers data.events with
        | .panicked => ⟨.panicked, db, [.getConn, .beginTrans]⟩
        | .errored s => ⟨.failure s, db, [.getConn, .beginTrans, .rollbackTrans]⟩
        | .inserted rows => ⟨.success, ⟨db.rows ++ rows⟩, [.getConn, .beginTrans, .commitTrans]⟩

/-- One physical column of a created table. -/
structure PgColumn where
  name : String
  ty : PgType
deriving DecidableEq, Repr

/-- The physical table catalog of the database. -/
structure PgDb where
  tables : List (String × List PgColumn)
deriving DecidableEq, Repr

/-- Modelled from the spec: one `CREATE TABLE IF NOT EXISTS` statement of
`db::create_tables` (not under `src/`): a no-op when a table of that name
already exists, otherwise it adds the table with the given columns. -/
def create_table_if_not_exists (db : PgDb) (name : String) (cols : List PgColumn) : PgDb :=
  if (alookup db.tables name).isSome then db else ⟨db.tables ++ [(name, cols)]⟩

/-- The physical column list of a declared table: every declared column with
its mapped physical SQL type. -/
def physicalColumns (t : Table) : List PgColumn :=
  t.columns.map fun c => ⟨c.name, c.ty.postgres_type⟩

/-- Modelled from the spec: `db::create_tables` (not under `src/`), the
table materializer of §4.3: "for each table, issues a creation statement
naming every declared column with its mapped physical SQL type … use
'create if not exists' semantics". -/
def create_tables (schema : Schema) (db : PgDb) : PgDb :=
  schema.tables.foldl (fun acc nt => create_table_if_not_exists acc nt.1 (physicalColumns nt.2)) db

/-- A concrete stand-in RFC 3339 parser used by witnesses: rejects every
string. -/
def rfcFail : Rfc3339Parser := fun _ => .error "invalid rfc3339"

/-- The per-type "absent" condition of `Type::json_to_sql`: the Rust option
handed to `unwrap_if_required` in the corresponding arm is `None` (for
`Timestamp`, `json_to_date_time` succeeding with `None`). -/
def coercedAbsent (rfc : Rfc3339Parser) (ty : Ty) (json : Json) : Prop :=
  match ty with
  | .Bool => json.as_bool = none
  | .I32 => json.as_i64.map i32_try_from = none
  | .I64 => json.as_i64 = none
  | .F32 => json.as_f64.map f32_narrow = none
  | .F64 => json.as_f64 = none
  | .String => json.as_str = none
  | .Timestamp => json_to_date_time rfc json = .ok none

instance instDecEqExcept {ε α : Type} [DecidableEq ε] [DecidableEq α] :
    DecidableEq (Except ε α) := fun x y =>
  match x, y with
  | .ok a, .ok b => if h : a = b then isTrue (by rw [h]) else isFalse (by simp [h])
  | .error a, .error b => if h : a = b then isTrue (by rw [h]) else isFalse (by simp [h])
  | .ok _, .error _ => isFalse (by simp)
  | .error _, .ok _ => isFalse (by simp)

instance instDecCoercedAbsent (rfc : Rfc3339Parser) (ty : Ty) (json : Json) :
    Decidable (coercedAbsent rfc ty json) :=
  match ty with
  | .Bool => inferInstanceAs (Decidable (json.as_bool = none))
  | .I32 => inferInstanceAs (Decidable (json.as_i64.map i32_try_from = none))
  | .I64 => inferInstanceAs (Decidable (json.as_i64 = none))
  | .F32 => inferInstanceAs (Decidable (json.as_f64.map f32_narrow = none))
  | .F64 => inferInstanceAs (Decidable (json.as_f64 = none))
  | .String => inferInstanceAs (Decidable (json.as_str = none))
  | .Timestamp => inferInstanceAs (Decidable (json_to_date_time rfc json = .ok none))

/-- The typed null each arm of `json_to_sql` boxes for an optional absent
value (`Box::new(None::<T>)` at that arm's `T`, as the driver binds it). -/
def typedNull : Ty → SqlValue
  | .Bool => .b none
  | .I32 => .i32 none
  | .I64 => .i64 none
  | .F32 => .f32 none
  | .F64 => .f64 none
  | .String => .str none
  | .Timestamp => .ts none

/-- C8: the `Type` enumeration is exactly the closed set
`{Bool, I32, I64, F32, F64, String, Timestamp}`; each variant maps to the
physical SQL type `BOOL, INT4, INT8, FLOAT4, FLOAT8, VARCHAR, TIMESTAMPTZ`
respectively, and the default `Type` is `String`. -/
theorem c8_type_enumeration_mapping_default :
    (∀ t : Ty, t = .Bool ∨ t = .I32 ∨ t = .I64 ∨ t = .F32 ∨ t = .F64 ∨
      t = .String ∨ t = .Timestamp) ∧
    Ty.postgres_type .Bool = .BOOL ∧ Ty.postgres_type .I32 = .INT4 ∧
    Ty.postgres_type .I64 = .INT8 ∧ Ty.postgres_type .F32 = .FLOAT4 ∧
    Ty.postgres_type .F64 = .FLOAT8 ∧ Ty.postgres_type .String = .VARCHAR ∧
    Ty.postgres_type .Timestamp = .TIMESTAMPTZ ∧ Ty.default = .String := by
  refine ⟨fun t => ?_, rfl, rfl, rfl, rfl, rfl, rfl, rfl, rfl⟩
  cases t <;> simp

/-- C3 (code bug witness): `I32` coercion of the JSON number `5000000000`.
`types.rs` maps `i32::try_from(i).ok()` over `json.as_i64()` with `.map`
instead of `.and_then`, so the out-of-range marker `None` is nested inside a
present `Some` — `unwrap_if_required` sees a present value and returns
`Ok(Box::new(None::<i32>))`, a typed null, even for a required column,
instead of the `MissingValue` the specification describes. -/
theorem c3_i32_overflow_required_yields_null (rfc : Rfc3339Parser) :
    Ty.json_to_sql .I32 rfc "x" (.num (.int 5000000000)) true = .ok (.i32 none) ∧
    Ty.json_to_sql .I32 rfc "x" (.num (.int 5000000000)) false = .ok (.i32 none) ∧
    exceptIsOk (Ty.json_to_sql .I32 rfc "x" (.num (.int 5000000000)) true) = true :=
  ⟨rfl, rfl, rfl⟩

/-- C4: whenever the coerced value is absent (type mismatch, or the missing
key's `Null`), a required column yields `MissingValue` carrying the column
name, and an optional column yields the typed null with no error. -/
theorem c4_absent_required_missing_optional_null (rfc : Rfc3339Parser) (ty : Ty)
    (key : String) (json : Json) (h : coercedAbsent rfc ty json) :
    ty.json_to_sql rfc key json true = .error (.MissingValue key) ∧
    ty.json_to_sql rfc key json false = .ok (typedNull ty) := by
  cases ty <;>
    · unfold coercedAbsent at h
      simp [Ty.json_to_sql, unwrap_if_required, typedNull, h]

theorem c4_witness :
    Ty.json_to_sql .Bool rfcFail "k" .null true = .error (.MissingValue "k") ∧
    Ty.json_to_sql .Bool rfcFail "k" .null false = .ok (typedNull .Bool) :=
  c4_absent_required_missing_optional_null rfcFail .Bool "k" .null (by decide)

/-- C6: a JSON string is handed (for every parser) to the strict RFC 3339
parser — success yields the parsed instant, a malformed string yields
`TimestampFormat` carrying the parser's detail — while every other JSON
shape (neither number nor string: object, array, null, boolean) yields
absent (`Ok(None)`), not an error. -/
theorem c6_timestamp_string_parse_other_shapes_absent (rfc : Rfc3339Parser) :
    (∀ s d, rfc s = .ok d → json_to_date_time rfc (.str s) = .ok (some d)) ∧
    (∀ s e, rfc s = .error e →
      json_to_date_time rfc (.str s) = .error (.TimestampFormat e)) ∧
    (∀ j : Json, j.is_number = false → j.is_string = false →
      json_to_date_time rfc j = .ok none) := by
  refine ⟨fun s d h => ?_, fun s e h => ?_, fun j h1 h2 => ?_⟩
  · simp [json_to_date_time, h]
  · simp [json_to_date_time, h]
  · cases j <;> simp_all [Json.is_number, Json.is_string, json_to_date_time]

theorem c6_witness :
    json_to_date_time rfcFail (.str "not-a-date") = .error (.TimestampFormat "invalid rfc3339") ∧
    json_to_date_time rfcFail .null = .ok none :=
  ⟨(c6_timestamp_string_parse_other_shapes_absent rfcFail).2.1 "not-a-date" "invalid rfc3339" rfl,
   (c6_timestamp_string_parse_other_shapes_absent rfcFail).2.2 .null rfl rfl⟩

/-- C7: when the app resolves but the submitted secret key differs from the
app's configured `secret_key` (exact string inequality), `events_post`
returns `Forbidden` with the database unchanged and an empty database-action
trace: no connection is acquired and no transaction is opened. -/
theorem c7_secret_mismatch_forbidden_untouched (rfc : Rfc3339Parser) (schema : Schema)
    (app_id : String) (headers : HeaderMap) (data : EventPostData) (db : Db) (app : App)
    (happ : alookup schema.apps app_id = some app)
    (hsec : data.secret_key ≠ app.secret_key) :
    events_post rfc schema app_id headers data db = some ⟨.failure .Forbidden, db, []⟩ := by
  simp [events_post, happ, hsec]

theorem rat_floor_le (q : Rat) : (Rat.floor q : Rat) ≤ q := Rat.le_floor.1 le_rfl

theorem rat_lt_floor_add_one (q : Rat) : q < Rat.floor q + 1 := by
  by_contra h
  push_neg at h
  have h2 : (Rat.floor q + 1 : Int) ≤ Rat.floor q := Rat.le_floor.2 (by push_cast; exact h)
  omega

theorem rat_floor_nonneg (q : Rat) (h : 0 ≤ q) : 0 ≤ Rat.floor q :=
  Rat.le_floor.2 (by exact_mod_cast h)

/-- Evaluation principle for `Rat.floor` (used because rational arithmetic is
not kernel-reducible). -/
theorem rat_floor_eq (q : Rat) (z : Int) (h1 : (z : Rat) ≤ q) (h2 : q < z + 1) :
    Rat.floor q = z := by
  have ha : z ≤ Rat.floor q := Rat.le_floor.2 h1
  have hb : Rat.floor q < z + 1 := by
    by_contra hc
    push_neg at hc
    have := Rat.le_floor.1 hc
    push_cast at this
    linarith
  omega

/-- For a nonnegative rational, Rust's sign-preserving `fract` agrees with the
floor-based fractional part. -/
theorem fract_rust_of_nonneg (q : Rat) (h : 0 ≤ q) :
    fract_rust q = q - (Rat.floor q : Rat) := by
  unfold fract_rust rat_trunc
  rw [if_pos h]

/-- Within chrono's representable range, the saturating `as i64` cast is the
identity. -/
theorem i64_sat_of_range (s : Int) (h1 : minTimestampSecs ≤ s) (h2 : s ≤ maxTimestampSecs) :
    i64_sat s = s := by
  unfold i64_sat minTimestampSecs at *
  unfold maxTimestampSecs at h2
  omega

/-- Above chrono's range the saturated cast stays above the range. -/
theorem i64_sat_too_large (s : Int) (h : maxTimestampSecs < s) :
    maxTimestampSecs < i64_sat s := by
  unfold i64_sat maxTimestampSecs at *
  omega

theorem from_timestamp_opt_some (secs : Int) (nsecs : Nat) (h1 : minTimestampSecs ≤ secs)
    (h2 : secs ≤ maxTimestampSecs) (h3 : nsecs < 2000000000) :
    NaiveDateTime.from_timestamp_opt secs nsecs = some ⟨secs, nsecs⟩ := by
  unfold NaiveDateTime.from_timestamp_opt
  rw [if_pos ⟨h1, h2, h3⟩]

theorem from_timestamp_opt_none_large (secs : Int) (nsecs : Nat)
    (h : maxTimestampSecs < secs) :
    NaiveDateTime.from_timestamp_opt secs nsecs = none := by
  unfold NaiveDateTime.from_timestamp_opt
  rw [if_neg]
  intro hc
  exact absurd hc.2.1 (not_le.2 h)

/-- C5 (amended): a JSON number is read as Unix epoch seconds.  For
nonnegative values the floor of the value gives the whole seconds and the
fractional part times 1e9, truncated, gives the nanoseconds, in the fixed
offset zero; a value whose floor exceeds the representable range yields
`TimestampTooLarge`.  (For negative fractional values the code instead
saturates the nanoseconds to zero, losing the fractional part — see the
counterexample.) -/
theorem c5_numeric_timestamp_epoch_seconds (rfc : Rfc3339Parser) (n : JNumber)
    (h : 0 ≤ n.as_f64_exact) :
    (minTimestampSecs ≤ Rat.floor n.as_f64_exact ∧
        Rat.floor n.as_f64_exact ≤ maxTimestampSecs →
      json_to_date_time rfc (.num n) =
        .ok (some ⟨Rat.floor n.as_f64_exact,
          (Rat.floor (1000000000 * (n.as_f64_exact - (Rat.floor n.as_f64_exact : Rat)))).toNat,
          0⟩)) ∧
    (maxTimestampSecs < Rat.floor n.as_f64_exact →
      json_to_date_time rfc (.num n) = .error .TimestampTooLarge) := by
  have hfr : fract_rust n.as_f64_exact =
      n.as_f64_exact - (Rat.floor n.as_f64_exact : Rat) := fract_rust_of_nonneg _ h
  have hf0 : (0 : Rat) ≤ n.as_f64_exact - (Rat.floor n.as_f64_exact : Rat) :=
    sub_nonneg.2 (rat_floor_le _)
  have hf1 : n.as_f64_exact - (Rat.floor n.as_f64_exact : Rat) < 1 := by
    have := rat_lt_floor_add_one n.as_f64_exact
    linarith
  have hnf0 : 0 ≤ Rat.floor (1000000000 * (n.as_f64_exact - (Rat.floor n.as_f64_exact : Rat))) :=
    rat_floor_nonneg _ (by positivity)
  have hnlt : Rat.floor (1000000000 * (n.as_f64_exact - (Rat.floor n.as_f64_exact : Rat))) <
      1000000000 := by
    by_contra hc
    push_neg at hc
    have h2 := rat_floor_le (1000000000 * (n.as_f64_exact - (Rat.floor n.as_f64_exact : Rat)))
    have h3 : ((1000000000 : Int) : Rat) ≤
        (Rat.floor (1000000000 * (n.as_f64_exact - (Rat.floor n.as_f64_exact : Rat))) : Rat) := by
      exact_mod_cast hc
    have h4 : (1000000000 : Rat) ≤
        1000000000 * (n.as_f64_exact - (Rat.floor n.as_f64_exact : Rat)) := by
      have := le_trans h3 h2
      push_cast at this
      linarith
    nlinarith
  have hu32 : u32_trunc_sat (1000000000 * fract_rust n.as_f64_exact) =
      (Rat.floor (1000000000 * (n.as_f64_exact - (Rat.floor n.as_f64_exact : Rat)))).toNat := by
    rw [hfr]
    unfold u32_trunc_sat
    rw [if_neg (not_lt.2 (by positivity))]
    omega
  have hnsec : (Rat.floor (1000000000 *
      (n.as_f64_exact - (Rat.floor n.as_f64_exact : Rat)))).toNat < 2000000000 := by omega
  constructor
  · rintro ⟨hlo, hhi⟩
    simp only [json_to_date_time]
    rw [i64_sat_of_range _ hlo hhi, hu32, from_timestamp_opt_some _ _ hlo hhi hnsec]
    rfl
  · intro hbig
    simp only [json_to_date_time]
    rw [from_timestamp_opt_none_large _ _ (i64_sat_too_large _ hbig)]

theorem c5_witness :
    json_to_date_time rfcFail (.num (.dec ((3400000001 : Rat) / 2))) =
      .ok (some ⟨1700000000, 500000000, 0⟩) := by
  have hfloor : Rat.floor ((JNumber.dec ((3400000001 : Rat) / 2)).as_f64_exact) = 1700000000 :=
    rat_floor_eq _ _ (by norm_num [JNumber.as_f64_exact]) (by norm_num [JNumber.as_f64_exact])
  have h := (c5_numeric_timestamp_epoch_seconds rfcFail (.dec ((3400000001 : Rat) / 2))
      (by norm_num [JNumber.as_f64_exact])).1
      (by rw [hfloor]
          constructor <;> norm_num [minTimestampSecs, maxTimestampSecs])
  rw [h, hfloor]
  have hfloor2 : Rat.floor (1000000000 *
      ((JNumber.dec ((3400000001 : Rat) / 2)).as_f64_exact - ((1700000000 : Int) : Rat))) =
      500000000 :=
    rat_floor_eq _ _ (by norm_num [JNumber.as_f64_exact]) (by norm_num [JNumber.as_f64_exact])
  rw [hfloor2]
  rfl

/-- C5 (counterexample): the numeric input `-1.5`.  The instant 1.5 seconds
before the epoch is exactly representable as `-2 s + 500000000 ns`, and the
claim's "the integer part gives whole seconds and the fractional part times
1e9, truncated, gives nanoseconds" description demands it; the code instead
computes `(-1.5).floor() = -2` seconds and saturates the negative
`1e9 * (-1.5).fract() = -5e8` to `0` nanoseconds, producing the instant
`-2.0 s`. -/
theorem c5_counterexample_negative_input :
    json_to_date_time rfcFail (.num (.dec (-(3 : Rat) / 2))) = .ok (some ⟨-2, 0, 0⟩) ∧
    Rat.floor (1000000000 * (-(3 : Rat) / 2 - (Rat.floor (-(3 : Rat) / 2) : Rat))) =
      500000000 := by
  constructor
  · simp only [json_to_date_time]
    have h1 : Rat.floor ((JNumber.dec (-(3 : Rat) / 2)).as_f64_exact) = -2 :=
      rat_floor_eq _ _ (by norm_num [JNumber.as_f64_exact]) (by norm_num [JNumber.as_f64_exact])
    have h2 : fract_rust ((JNumber.dec (-(3 : Rat) / 2)).as_f64_exact) = -(1 : Rat) / 2 := by
      unfold fract_rust rat_trunc
      rw [if_neg (by norm_num [JNumber.as_f64_exact])]
      have h3 : Rat.floor (-((JNumber.dec (-(3 : Rat) / 2)).as_f64_exact)) = 1 :=
        rat_floor_eq _ _ (by norm_num [JNumber.as_f64_exact]) (by norm_num [JNumber.as_f64_exact])
      rw [h3]
      norm_num [JNumber.as_f64_exact]
    rw [h1, h2]
    have h4 : u32_trunc_sat (1000000000 * (-(1 : Rat) / 2)) = 0 := by
      unfold u32_trunc_sat
      rw [if_pos (by norm_num)]
    rw [h4, i64_sat_of_range _ (by norm_num [minTimestampSecs]) (by norm_num [maxTimestampSecs]),
      from_timestamp_opt_some _ _ (by norm_num [minTimestampSecs])
        (by norm_num [maxTimestampSecs]) (by norm_num)]
    rfl
  · have hm2 : Rat.floor (-(3 : Rat) / 2) = -2 :=
      rat_floor_eq _ _ (by norm_num) (by norm_num)
    rw [hm2]
    exact rat_floor_eq _ _ (by push_cast; norm_num) (by push_cast; norm_num)

/-- Concrete request data for the `events_post` witnesses: one app `"a"`
with secret `"right"` authorized for table `"t"`, whose single required
`I64` column `"x"` is sourced from the event body. -/
def colX : Column := ⟨"x", .I64, true, .eventField⟩

def tableT : Table := ⟨"t", [colX]⟩

def appA : App := ⟨"right", "*", ["t"]⟩

def schemaW : Schema := ⟨[("a", appA)], [("t", tableT)]⟩

theorem c7_witness :
    events_post rfcFail schemaW "a" [] ⟨"wrong", []⟩ ⟨[]⟩ =
      some ⟨.failure .Forbidden, ⟨[]⟩, []⟩ :=
  c7_secret_mismatch_forbidden_untouched rfcFail schemaW "a" [] ⟨"wrong", []⟩ ⟨[]⟩ appA
    (by decide) (by decide)

theorem alookup_append {β : Type} (l1 l2 : List (String × β)) (k : String) :
    alookup (l1 ++ l2) k =
      match alookup l1 k with
      | some v => some v
      | none => alookup l2 k := by
  induction l1 with
  | nil => simp [alookup]
  | cons p rest ih =>
    obtain ⟨a, b⟩ := p
    by_cases hak : a = k <;> simp [alookup, hak, ih]

theorem create_if_not_exists_preserves (db : PgDb) (n : String) (c : List PgColumn)
    (m : String) (h : (alookup db.tables m).isSome) :
    (alookup (create_table_if_not_exists db n c).tables m).isSome := by
  unfold create_table_if_not_exists
  split
  · exact h
  · rw [alookup_append]
    obtain ⟨v, hv⟩ := Option.isSome_iff_exists.1 h
    simp [hv]

theorem create_if_not_exists_self (db : PgDb) (n : String) (c : List PgColumn) :
    (alookup (create_table_if_not_exists db n c).tables n).isSome := by
  unfold create_table_if_not_exists
  split
  next h => exact h
  next h =>
    rw [alookup_append]
    rw [Option.not_isSome_iff_eq_none] at h
    simp [h, alookup]

theorem create_fold_preserves (l : List (String × Table)) (db : PgDb) (m : String)
    (h : (alookup db.tables m).isSome) :
    (alookup (l.foldl
      (fun acc nt => create_table_if_not_exists acc nt.1 (physicalColumns nt.2)) db).tables
      m).isSome := by
  induction l generalizing db with
  | nil => exact h
  | cons p rest ih =>
    exact ih _ (create_if_not_exists_preserves _ _ _ _ h)

theorem create_fold_creates (l : List (String × Table)) (db : PgDb) :
    ∀ p ∈ l, (alookup (l.foldl
      (fun acc nt => create_table_if_not_exists acc nt.1 (physicalColumns nt.2)) db).tables
      p.1).isSome := by
  induction l generalizing db with
  | nil => intro p hp; cases hp
  | cons q rest ih =>
    intro p hp
    rcases List.mem_cons.1 hp with hp | hp
    · subst hp
      exact create_fold_preserves rest _ _ (create_if_not_exists_self _ _ _)
    · exact ih _ p hp

theorem create_fold_noop (l : List (String × Table)) (db : PgDb)
    (h : ∀ p ∈ l, (alookup db.tables p.1).isSome) :
    l.foldl (fun acc nt => create_table_if_not_exists acc nt.1 (physicalColumns nt.2)) db = db := by
  induction l with
  | nil => rfl
  | cons q rest ih =>
    have hq : create_table_if_not_exists db q.1 (physicalColumns q.2) = db := by
      unfold create_table_if_not_exists
      rw [if_pos (h q (by simp))]
    simp only [List.foldl_cons, hq]
    exact ih fun p hp => h p (by simp [hp])

/-- C9: materialization is idempotent.  `create_tables` issues one
create-if-not-exists statement per declared table, so running it a second
time against the database produced by the first run changes nothing. -/
theorem c9_materialize_idempotent (schema : Schema) (db : PgDb) :
    create_tables schema (create_tables schema db) = create_tables schema db := by
  unfold create_tables
  exact create_fold_noop _ _ fun p hp => create_fold_creates _ _ p hp

theorem prevalidate_ok_all_good (app : App) (events : List Json)
    (h : prevalidate app events = .ok ()) :
    ∀ e ∈ events, ∃ tname, (e.index "_t").as_str = some tname ∧ tname ∈ app.tables := by
  induction events with
  | nil => intro e he; cases he
  | cons e0 rest ih =>
    intro e he
    unfold prevalidate at h
    rcases hts : (e0.index "_t").as_str with _ | tname
    · simp only [hts] at h
      exact Except.noConfusion h
    · simp only [hts] at h
      by_cases hmem : tname ∈ app.tables
      · rw [if_pos hmem] at h
        rcases List.mem_cons.1 he with he | he
        · subst he; exact ⟨tname, hts, hmem⟩
        · exact ih h e he
      · rw [if_neg hmem] at h
        exact Except.noConfusion h

theorem insert_loop_not_panicked (rfc : Rfc3339Parser) (schema : Schema)
    (headers : HeaderMap) (events : List Json)
    (h : ∀ e ∈ events, ((e.index "_t").as_str).isSome) :
    insert_loop rfc schema headers events ≠ .panicked := by
  induction events with
  | nil =>
    intro hc
    simp [insert_loop] at hc
  | cons e0 rest ih =>
    intro hc
    unfold insert_loop at hc
    rcases hts : (e0.index "_t").as_str with _ | tname
    · have := h e0 (by simp)
      rw [hts] at this
      cases this
    · simp only [hts] at hc
      rcases hlk : alookup schema.tables tname with _ | table
      · simp only [hlk] at hc
        exact LoopResult.noConfusion hc
      · simp only [hlk] at hc
        rcases hie : insert_event rfc table e0 headers with d | row
        · rcases d with ⟨t', ce⟩ | msg <;> simp only [hie] at hc <;>
            exact LoopResult.noConfusion hc
        · simp only [hie] at hc
          rcases hrest : insert_loop rfc schema headers rest with _ | s | rows
          · exact ih (fun e he => h e (by simp [he])) hrest
          · simp only [hrest] at hc
            exact LoopResult.noConfusion hc
          · simp only [hrest] at hc
            exact LoopResult.noConfusion hc

/-- Helper for the panic-freedom claim: no run of `events_post` maps to the
panicked outcome. -/
theorem events_post_never_panicked (rfc : Rfc3339Parser) (schema : Schema)
    (app_id : String) (headers : HeaderMap) (data : EventPostData) (db : Db) :
    (events_post rfc schema app_id headers data db).map IngestResult.outcome ≠
      some .panicked := by
  unfold events_post
  rcases halk : alookup schema.apps app_id with _ | app
  · simp [halk]
  · simp only [halk]
    by_cases hsec : data.secret_key ≠ app.secret_key
    · simp [hsec]
    · rw [if_neg hsec]
      rcases hpre : prevalidate app data.events with s | u
      · simp [hpre]
      · simp only [hpre]
        rcases hloop : insert_loop rfc schema headers data.events with _ | s | rows
        · exact absurd hloop (insert_loop_not_panicked rfc schema headers data.events
            fun e he => by
              obtain ⟨tname, hts, _⟩ := prevalidate_ok_all_good app data.events hpre e he
              rw [hts]
              rfl)
        · simp [hloop]
        · simp [hloop]

/-- C10: the `unwrap()` of `event["_t"].as_str()` inside the transactional
insertion loop can never panic: the loop is only reached after the
pre-validation pass succeeded, which establishes that every event's `_t` is
a JSON string.  Hence every result any run of `events_post` produces (over
any schema, app id, headers, batch and database) has the success outcome or
a failure-status outcome — never the panicked one. -/
theorem c10_insertion_loop_unwrap_never_panics (rfc : Rfc3339Parser) (schema : Schema)
    (app_id : String) (headers : HeaderMap) (data : EventPostData) (db : Db) :
    ∀ r ∈ events_post rfc schema app_id headers data db,
      r.outcome = .success ∨ ∃ s, r.outcome = .failure s := by
  intro r hr
  rcases ho : r.outcome with _ | s | _
  · exact Or.inl rfl
  · exact Or.inr ⟨s, rfl⟩
  · exfalso
    rw [Option.mem_def] at hr
    have hmap : (events_post rfc schema app_id headers data db).map IngestResult.outcome =
        some .panicked := by
      rw [hr]
      simp [ho]
    exact events_post_never_panicked rfc schema app_id headers data db hmap

theorem c10_witness :
    (⟨.failure .Forbidden, ⟨[]⟩, []⟩ : IngestResult).outcome = .success ∨
      ∃ s, (⟨.failure .Forbidden, ⟨[]⟩, []⟩ : IngestResult).outcome = .failure s :=
  c10_insertion_loop_unwrap_never_panics rfcFail schemaW "a" [] ⟨"wrong", []⟩ ⟨[]⟩
    ⟨.failure .Forbidden, ⟨[]⟩, []⟩ (by decide)

/-- C2 (counterexample): a batch whose first event names an unauthorized
table (`"evil"`) and whose second event has no `_t` at all.  Some event's
`_t` is absent, yet the call returns `NotFound` — decided by the earlier
authorization failure — not the `BadRequest` the claim requires for a batch
containing a `_t`-less event.  The outcome is decided by the first offending
event in batch order. -/
theorem c2_counterexample_mixed_batch :
    events_post rfcFail schemaW "a" []
      ⟨"right", [.obj [("_t", .str "evil")], .obj []]⟩ ⟨[]⟩ =
      some ⟨.failure .NotFound, ⟨[]⟩, []⟩ ∧
    ((Json.obj []).index "_t").as_str = none := by
  constructor
  · decide
  · rfl

theorem prevalidate_cons (app : App) (e : Json) (rest : List Json) :
    prevalidate app (e :: rest) =
      match (e.index "_t").as_str with
      | none => .error .BadRequest
      | some tname =>
        if tname ∈ app.tables then prevalidate app rest else .error .NotFound := rfl

theorem prevalidate_append (app : App) (pre l : List Json)
    (hpre : ∀ e' ∈ pre, ∃ t, (e'.index "_t").as_str = some t ∧ t ∈ app.tables) :
    prevalidate app (pre ++ l) = prevalidate app l := by
  induction pre with
  | nil => rfl
  | cons p ps ih =>
    obtain ⟨t, hts, hmem⟩ := hpre p (by simp)
    rw [List.cons_append, prevalidate_cons]
    simp only [hts]
    rw [if_pos hmem]
    exact ih fun e' he' => hpre e' (by simp [he'])

/-- C2 (amended): the pre-validation pass runs in batch order before any
database work; the first offending event decides the outcome.  If, after a
prefix of events whose `_t` names an authorized table, the next event's
`_t` is absent or not a string, the whole call returns `BadRequest`; if its
`_t` is a string naming a table outside the app's authorized set, the whole
call returns `NotFound`.  Either way the database is unchanged and the
database-action trace is empty: zero rows are persisted and no connection
is acquired. -/
theorem c2_prevalidation_first_offender (rfc : Rfc3339Parser) (schema : Schema)
    (app_id : String) (headers : HeaderMap) (db : Db) (app : App) (secret : String)
    (pre : List Json) (e : Json) (rest : List Json)
    (happ : alookup schema.apps app_id = some app)
    (hsec : secret = app.secret_key)
    (hpre : ∀ e' ∈ pre, ∃ t, (e'.index "_t").as_str = some t ∧ t ∈ app.tables) :
    ((e.index "_t").as_str = none →
      events_post rfc schema app_id headers ⟨secret, pre ++ e :: rest⟩ db =
        some ⟨.failure .BadRequest, db, []⟩) ∧
    (∀ t, (e.index "_t").as_str = some t → t ∉ app.tables →
      events_post rfc schema app_id headers ⟨secret, pre ++ e :: rest⟩ db =
        some ⟨.failure .NotFound, db, []⟩) := by
  have hsec' : ¬ (secret ≠ app.secret_key) := by simp [hsec]
  constructor
  · intro hnone
    have hval : prevalidate app (pre ++ e :: rest) = .error .BadRequest := by
      rw [prevalidate_append app pre _ hpre]
      unfold prevalidate
      simp only [hnone]
    unfold events_post
    simp only [happ]
    rw [if_neg hsec']
    simp only [hval]
  · intro t hts hmem
    have hval : prevalidate app (pre ++ e :: rest) = .error .NotFound := by
      rw [prevalidate_append app pre _ hpre]
      unfold prevalidate
      simp only [hts]
      rw [if_neg hmem]
    unfold events_post
    simp only [happ]
    rw [if_neg hsec']
    simp only [hval]

theorem c2_witness :
    events_post rfcFail schemaW "a" []
      ⟨"right", [Json.obj [("_t", Json.str "t")], Json.obj []]⟩ ⟨[]⟩ =
      some ⟨.failure .BadRequest, ⟨[]⟩, []⟩ :=
  (c2_prevalidation_first_offender rfcFail schemaW "a" [] ⟨[]⟩ appA "right"
    [Json.obj [("_t", Json.str "t")]] (Json.obj []) []
    (by decide) rfl
    (fun e' he' => by
      rcases List.mem_cons.1 he' with h | h
      · subst h
        exact ⟨"t", rfl, by decide⟩
      · cases h)).1 rfl

theorem coerce_column_error_shape (rfc : Rfc3339Parser) (tname : String) (event : Json)
    (headers : HeaderMap) (col : Column) (d : DbError)
    (h : coerce_column rfc tname event headers col = .error d) :
    ∃ ce, d = DbError.ConversionError tname ce := by
  unfold coerce_column at h
  rcases hsrc : col.source with _ | hdr <;> simp only [hsrc] at h
  · rcases hj : col.ty.json_to_sql rfc col.name (event.index col.name) col.required
      with e | v <;> simp only [hj] at h
    · injection h with h'
      exact ⟨e, h'.symm⟩
    · exact Except.noConfusion h
  · rcases hj : header_to_sql col.name (alookup headers hdr) col.required
      with e | v <;> simp only [hj] at h
    · injection h with h'
      exact ⟨e, h'.symm⟩
    · exact Except.noConfusion h

theorem coerce_columns_ok_all (rfc : Rfc3339Parser) (tname : String) (event : Json)
    (headers : HeaderMap) :
    ∀ (cols : List Column) (vs : List SqlValue),
      coerce_columns rfc tname event headers cols = .ok vs →
      ∀ col ∈ cols, exceptIsOk (coerce_column rfc tname event headers col) = true := by
  intro cols
  induction cols with
  | nil => intro vs _ col hcol; cases hcol
  | cons c cs ih =>
    intro vs h col hcol
    unfold coerce_columns at h
    rcases hc : coerce_column rfc tname event headers c with d | v <;> simp only [hc] at h
    · exact Except.noConfusion h
    · rcases hcs : coerce_columns rfc tname event headers cs with d | vs' <;>
        simp only [hcs] at h
      · exact Except.noConfusion h
      · rcases List.mem_cons.1 hcol with hcol | hcol
        · subst hcol
          rw [hc]
          rfl
        · exact ih vs' hcs col hcol

theorem coerce_columns_error_shape (rfc : Rfc3339Parser) (tname : String) (event : Json)
    (headers : HeaderMap) :
    ∀ (cols : List Column) (d : DbError),
      coerce_columns rfc tname event headers cols = .error d →
      ∃ ce, d = DbError.ConversionError tname ce := by
  intro cols
  induction cols with
  | nil => intro d h; exact Except.noConfusion h
  | cons c cs ih =>
    intro d h
    unfold coerce_columns at h
    rcases hc : coerce_column rfc tname event headers c with d' | v <;> simp only [hc] at h
    · injection h with h'
      obtain ⟨ce, hce⟩ := coerce_column_error_shape rfc tname event headers c d' hc
      exact ⟨ce, h' ▸ hce⟩
    · rcases hcs : coerce_columns rfc tname event headers cs with d' | vs <;>
        simp only [hcs] at h
      · injection h with h'
        obtain ⟨ce, hce⟩ := ih d' hcs
        exact ⟨ce, h' ▸ hce⟩
      · exact Except.noConfusion h

theorem insert_loop_conversion_failure (rfc : Rfc3339Parser) (schema : Schema)
    (headers : HeaderMap) :
    ∀ events : List Json,
      (∀ e ∈ events, ∃ tname table, (e.index "_t").as_str = some tname ∧
        alookup schema.tables tname = some table) →
      (∃ e ∈ events, ∃ tname table col, (e.index "_t").as_str = some tname ∧
        alookup schema.tables tname = some table ∧ col ∈ table.columns ∧
        exceptIsOk (coerce_column rfc table.name e headers col) = false) →
      insert_loop rfc schema headers events = .errored .BadRequest := by
  intro events
  induction events with
  | nil =>
    intro _ hfail
    obtain ⟨e, he, _⟩ := hfail
    cases he
  | cons e0 rest ih =>
    intro hgood hfail
    obtain ⟨tn0, tab0, hts0, hlk0⟩ := hgood e0 (by simp)
    unfold insert_loop
    simp only [hts0, hlk0]
    rcases hie : insert_event rfc tab0 e0 headers with d | row
    · have hshape : ∃ ce, d = DbError.ConversionError tab0.name ce := by
        unfold insert_event at hie
        rcases hcc : coerce_columns rfc tab0.name e0 headers tab0.columns with d' | vs <;>
          simp only [hcc] at hie
        · injection hie with h'
          obtain ⟨ce, hce⟩ := coerce_columns_error_shape rfc tab0.name e0 headers
            tab0.columns d' hcc
          exact ⟨ce, h' ▸ hce⟩
        · exact Except.noConfusion hie
      obtain ⟨ce, rfl⟩ := hshape
      simp only [hie]
    · obtain ⟨e, he, tname, table, col, hts, hlk, hcm, hfc⟩ := hfail
      rcases List.mem_cons.1 he with he | he
      · subst he
        rw [hts0] at hts
        injection hts with hts
        subst hts
        rw [hlk0] at hlk
        injection hlk with hlk
        subst hlk
        have hcc : ∃ vs, coerce_columns rfc tab0.name e headers tab0.columns = .ok vs := by
          unfold insert_event at hie
          rcases hcc : coerce_columns rfc tab0.name e headers tab0.columns with d' | vs <;>
            simp only [hcc] at hie
          · exact Except.noConfusion hie
          · exact ⟨vs, rfl⟩
        obtain ⟨vs, hcc⟩ := hcc
        have := coerce_columns_ok_all rfc tab0.name e headers tab0.columns vs hcc col hcm
        rw [this] at hfc
        exact Bool.noConfusion hfc
      · have hrest := ih (fun e' he' => hgood e' (by simp [he']))
          ⟨e, he, tname, table, col, hts, hlk, hcm, hfc⟩
        simp only [hie, hrest]

/-- C1: for a batch that passes app resolution, authentication and the
pre-validation pass (against a schema whose app table references all
resolve), if the per-column coercion of any column of any event fails, the
whole call returns `BadRequest`, the transaction is rolled back, and the
database is unchanged — zero rows persisted, including rows of events
earlier in batch order that converted successfully. -/
theorem c1_conversion_error_rolls_back_batch (rfc : Rfc3339Parser) (schema : Schema)
    (app_id : String) (headers : HeaderMap) (data : EventPostData) (db : Db) (app : App)
    (happ : alookup schema.apps app_id = some app)
    (hsec : data.secret_key = app.secret_key)
    (hpre : prevalidate app data.events = .ok ())
    (hwf : ∀ t ∈ app.tables, (alookup schema.tables t).isSome)
    (hfail : ∃ e ∈ data.events, ∃ tname table col, (e.index "_t").as_str = some tname ∧
      alookup schema.tables tname = some table ∧ col ∈ table.columns ∧
      exceptIsOk (coerce_column rfc table.name e headers col) = false) :
    events_post rfc schema app_id headers data db =
      some ⟨.failure .BadRequest, db, [.getConn, .beginTrans, .rollbackTrans]⟩ := by
  have hgood : ∀ e ∈ data.events, ∃ tname table, (e.index "_t").as_str = some tname ∧
      alookup schema.tables tname = some table := by
    intro e he
    obtain ⟨tname, hts, hmem⟩ := prevalidate_ok_all_good app data.events hpre e he
    obtain ⟨table, htab⟩ := Option.isSome_iff_exists.1 (hwf tname hmem)
    exact ⟨tname, table, hts, htab⟩
  have hloop := insert_loop_conversion_failure rfc schema headers data.events hgood hfail
  unfold events_post
  simp only [happ]
  rw [if_neg (by simp [hsec])]
  simp only [hpre, hloop]

theorem c1_witness :
    events_post rfcFail schemaW "a" []
      ⟨"right", [Json.obj [("_t", Json.str "t"), ("x", Json.num (.int 1))],
        Json.obj [("_t", Json.str "t")]]⟩ ⟨[]⟩ =
      some ⟨.failure .BadRequest, ⟨[]⟩, [.getConn, .beginTrans, .rollbackTrans]⟩ :=
  c1_conversion_error_rolls_back_batch rfcFail schemaW "a" [] _ ⟨[]⟩ appA
    (by decide) rfl (by decide) (by decide)
    ⟨Json.obj [("_t", Json.str "t")],
      List.mem_cons_of_mem _ (List.mem_cons_self _ _),
      "t", tableT, colX, rfl, by decide, List.mem_cons_self _ _, by decide⟩
